import Mathlib

/-!
Verification of the audionote-processor core against its specification.

The development shallowly embeds the Python modules of the repository:

* `modules/ics_parser.py` — calendar event matching (`ICSParser.match_course`,
  `ICSParser._calc_week_num`).  Aware datetimes in the single fixed civil
  timezone (Asia/Shanghai) are modelled as integer seconds of local time;
  `datetime.date()` extraction becomes floor division by 86400, and the
  `timedelta.total_seconds()` distances are integer second differences.
* `modules/llm_handler.py` — template classification (`_select_template`),
  deterministic post-processing (`_post_process_note`) modelled character by
  character including the semantics of the Python regexes involved, and the
  retry loop of `generate_note` with the model call kept abstract as an
  oracle of per-attempt results.
* `modules/obsidian_manager.py` — sequence-number allocation
  (`get_next_sequence_num`) over directory listings, and the
  temp-file-plus-rename write of `save_note` as a small trace semantics over
  an association-list filesystem.
* `main.py` — the fatal exit codes of the per-file pipeline.

Python `str.strip()` is modelled as dropping the whitespace characters
matched by the regex class `\s` (space, tab, newline, carriage return,
vertical tab, form feed); transcripts and notes in this system are plain
text where these are the only whitespace characters that occur.
-/

namespace AudioNote

/-- Characters matched by the Python regex class `\s` (and stripped by
`str.strip()`): space, tab, newline, carriage return, vertical tab, form
feed. -/
def pyIsSpace (c : Char) : Bool :=
  c == ' ' || c == '\t' || c == '\n' || c == '\r' || c == '\x0b' || c == '\x0c'

/-- Python `str.strip()` on a character list: drop whitespace from both
ends. -/
def pyStrip (l : List Char) : List Char :=
  ((l.dropWhile pyIsSpace).reverse.dropWhile pyIsSpace).reverse

/-- Python `str.strip()` on a string. -/
def pyStripStr (s : String) : String :=
  ⟨pyStrip s.data⟩

/-- Python substring containment `a in b` (contiguous occurrence). -/
def pySubstr (a b : String) : Bool :=
  decide (a.data <:+: b.data)

/-! ## Calendar index: `modules/ics_parser.py`

A `ParsedEvent` is the dataclass of the source with `name`, aware `begin`
and aware `end`; the two timestamps are modelled as integer seconds of
Asia/Shanghai local civil time (field `endTime` because `end` is reserved
in Lean). -/

structure ParsedEvent where
  name : String
  begin : Int
  endTime : Int
deriving DecidableEq, Repr

/-- The result dictionary of `ICSParser.match_course`:
a dictionary with the keys `course_name` and `week_num`. -/
structure CourseMatch where
  course_name : String
  week_num : Int
deriving DecidableEq, Repr

/-- The state of an `ICSParser` after `__init__`: the expanded event list
(sorted by `begin` ascending at load time) and the configured semester
start date, the latter as a day number (days since the same epoch whose
seconds count the event timestamps use). -/
structure ICSParser where
  events : List ParsedEvent
  semesterStartDay : Int
deriving Repr

/-- Local civil date of a timestamp: `datetime.date()` under the fixed
timezone, i.e. floor division of local seconds by 86400. -/
def dayOf (t : Int) : Int := Int.fdiv t 86400

/-- `ICSParser._calc_week_num`: `max(1, 1 + delta_days // 7)` where
`delta_days = (dt.date() - self._semester_start_date).days`; Python `//`
is floor division. -/
def calcWeekNum (p : ICSParser) (t : Int) : Int :=
  max 1 (1 + Int.fdiv (dayOf t - p.semesterStartDay) 7)

/-- The covering test of `match_course` step 1:
`ev.begin <= target <= ev.end`. -/
def coverB (t : Int) (ev : ParsedEvent) : Bool :=
  decide (ev.begin ≤ t) && decide (t ≤ ev.endTime)

/-- `edge_distance_seconds` of `match_course` step 2:
`min(|begin - target|, |end - target|)`. -/
def edgeDist (t : Int) (ev : ParsedEvent) : Int :=
  min |ev.begin - t| |ev.endTime - t|

/-- First element of the list attaining the minimal key.  This models both
`covering.sort(key=...)` (Timsort, stable) followed by `covering[0]`, and
`min(self._events, key=...)` (Python `min` returns the first minimum):
both select the earliest element of the list whose key is minimal. -/
def firstMinBy {α : Type} (key : α → Int) : List α → Option α
  | [] => none
  | e :: rest =>
    match firstMinBy key rest with
    | none => some e
    | some m => if key m < key e then some m else some e

/-- The covering sublist computed by `match_course` step 1. -/
def coveringOf (p : ICSParser) (t : Int) : List ParsedEvent :=
  p.events.filter (coverB t)

/-- `ICSParser.match_course`.  Step 0: empty event list gives `None`.
Step 1: events covering the target, sorted stably by `|begin - target|`,
first one wins.  Step 2: otherwise the event with the nearest edge wins
if that edge is at most 3600 seconds away.  Step 3: otherwise `None`.
`.strip()` on the name of the hit is `pyStripStr`. -/
def matchCourse (p : ICSParser) (t : Int) : Option CourseMatch :=
  if p.events.isEmpty then none
  else
    match firstMinBy (fun ev => |ev.begin - t|) (coveringOf p t) with
    | some hit => some ⟨pyStripStr hit.name, calcWeekNum p t⟩
    | none =>
      match firstMinBy (edgeDist t) p.events with
      | some closest =>
        if edgeDist t closest ≤ 3600 then
          some ⟨pyStripStr closest.name, calcWeekNum p t⟩
        else none
      | none => none

/-! ## Note post-processing: `LLMHandler._post_process_note`

The function is modelled character by character on `List Char`.  Each
Python regex that occurs in the source is deterministic on its inputs
(no backtracking choice survives, as argued at each definition), so it is
embedded as a direct recursive scanner.  The regex class `\d` is modelled
as ASCII digits (`Char.isDigit`); filenames and note text in this system
contain no other Unicode digits. -/

/-- Literal prefix match: if `p` is a prefix of `s`, return the rest of
`s`. -/
def matchLit : List Char → List Char → Option (List Char)
  | [], s => some s
  | _, [] => none
  | p :: ps, c :: cs => if p = c then matchLit ps cs else none

/-- Python `content.replace("***", "---")`: leftmost non-overlapping
replacement of every occurrence. -/
def starsToDashes : List Char → List Char
  | '*' :: '*' :: '*' :: r => '-' :: '-' :: '-' :: starsToDashes r
  | c :: r => c :: starsToDashes r
  | [] => []

/-- The lazy tail `(.*?)\}` of the cloze regex: capture characters up to
the first right brace; `.` does not match a newline, so fail if a newline
comes first. -/
def takeToRBrace : List Char → Option (List Char × List Char)
  | [] => none
  | '}' :: r => some ([], r)
  | '\n' :: _ => none
  | c :: r => (takeToRBrace r).map (fun x => (c :: x.1, x.2))

/-- Match the regex `\{c\d+::(.*?)\}` at the head of the list, returning
the captured group and the remainder after the match. -/
def matchClozeAt : List Char → Option (List Char × List Char)
  | '{' :: 'c' :: r =>
    if (r.takeWhile Char.isDigit).isEmpty then none
    else
      match r.dropWhile Char.isDigit with
      | ':' :: ':' :: r2 => takeToRBrace r2
      | _ => none
  | _ => none

/-- The global substitution of the cloze pattern (replacement
`{{c1::\1}}`): scan left to right,
emit the replacement for each match and continue after it.  The fuel is
the input length; every step consumes at least one character, so it never
runs out. -/
def clozeSubAux : Nat → List Char → List Char
  | 0, s => s
  | _ + 1, [] => []
  | fuel + 1, c :: r =>
    match matchClozeAt (c :: r) with
    | some (cap, rem) =>
      '{' :: '{' :: 'c' :: '1' :: ':' :: ':' :: (cap ++ '}' :: '}' :: clozeSubAux fuel rem)
    | none => c :: clozeSubAux fuel r

/-- The brace-and-index normalisation pass of `_post_process_note`. -/
def clozeSub (s : List Char) : List Char := clozeSubAux s.length s

/-- The lazy tail `(.*?)\}\}` of the stripping regex: capture characters
up to the first occurrence of a double right brace. -/
def takeToRBrace2 : List Char → Option (List Char × List Char)
  | '}' :: '}' :: r => some ([], r)
  | '\n' :: _ => none
  | [] => none
  | c :: r => (takeToRBrace2 r).map (fun x => (c :: x.1, x.2))

/-- Match the regex `\{\{c1::(.*?)\}\}` at the head of the list. -/
def matchStripAt : List Char → Option (List Char × List Char)
  | '{' :: '{' :: 'c' :: '1' :: ':' :: ':' :: r => takeToRBrace2 r
  | _ => none

/-- The substitution replacing each `{{c1::...}}` match by its
captured group: outside the Anki
section, drop cloze markers keeping only the captured text. -/
def clozeStripAux : Nat → List Char → List Char
  | 0, s => s
  | _ + 1, [] => []
  | fuel + 1, c :: r =>
    match matchStripAt (c :: r) with
    | some (cap, rem) => cap ++ clozeStripAux fuel rem
    | none => c :: clozeStripAux fuel r

/-- The cloze-marker stripping applied to lines outside the Anki
section. -/
def clozeStrip (s : List Char) : List Char := clozeStripAux s.length s

/-- Python `str.splitlines()` for texts whose only line terminator is
`\n` (the only one this pipeline produces): split on newlines, with no
empty final entry for a trailing newline and `[]` for the empty string. -/
def splitlines (s : List Char) : List (List Char) :=
  if s = [] then []
  else if s.getLast? = some '\n' then (s.splitOn '\n').dropLast
  else s.splitOn '\n'

/-- Python `"\n".join(lines)`. -/
def joinNl (ls : List (List Char)) : List Char := List.intercalate ['\n'] ls

/-- `\s*` consumption. -/
def dropWs (s : List Char) : List Char := s.dropWhile pyIsSpace

/-- The Anki section heading test of `_post_process_note` and
`_extract_anki_bounds`:
`re.match(r"^\s*##\s*🧠\s*Anki\s*卡片\s*$", line)` or
`re.match(r"^\s*##\s*Anki\s*卡片\s*$", line)`.  Both alternatives are
case sensitive (no `re.IGNORECASE` flag in the source); they differ only
in the optional emoji, so they are folded into one scan. -/
def ankiHeaderLine (line : List Char) : Bool :=
  match matchLit ['#', '#'] (dropWs line) with
  | none => false
  | some s =>
    let s := dropWs s
    let s :=
      match matchLit ['🧠'] s with
      | some s2 => dropWs s2
      | none => s
    match matchLit "Anki".data s with
    | none => false
    | some s =>
      match matchLit "卡片".data (dropWs s) with
      | none => false
      | some s => dropWs s == []

/-- `re.match(r"^\s*##\s+", line)`: a second-level heading, used to leave
the Anki section. -/
def isH2 (line : List Char) : Bool :=
  match matchLit ['#', '#'] (dropWs line) with
  | none => false
  | some s =>
    match s with
    | c :: _ => pyIsSpace c
    | [] => false

/-- The first line loop of `_post_process_note`: track whether the
current line is inside the Anki section; outside it, strip `{{c1::...}}`
markers; inside it (and on the heading line itself) keep lines
unchanged.  A later `##` heading leaves the section. -/
def stripOutsideLoop : Bool → List (List Char) → List (List Char)
  | _, [] => []
  | inAnki, l :: ls =>
    if ankiHeaderLine l then l :: stripOutsideLoop true ls
    else if inAnki then l :: stripOutsideLoop (if isH2 l then false else true) ls
    else clozeStrip l :: stripOutsideLoop false ls

/-- Case-insensitive literal prefix match (ASCII lowering), for the
`(?i)` flag. -/
def matchLitCI : List Char → List Char → Option (List Char)
  | [], s => some s
  | _, [] => none
  | p :: ps, c :: cs => if p.toLower = c.toLower then matchLitCI ps cs else none

/-- The trailing `\s*\n` of the summary-heading pattern: the greedy
whitespace run backtracks minimally to end at a newline, which consumes
exactly through the last newline of the maximal whitespace run (failing
if the run contains none). -/
def wsThroughLastNl : List Char → Option (List Char)
  | [] => none
  | c :: r =>
    if pyIsSpace c then
      match wsThroughLastNl r with
      | some rem => some rem
      | none => if c = '\n' then some r else none
    else none

/-- Match
`(?mi)^\s*###\s*\d*\.?\s*(One-Sentence Summary|一句话总结)\s*\n`
at a line-start position.  Every component is deterministic: each `\s*`,
`\d*` and `\.?` is followed by a token no character it consumes could
begin, and the two alternatives start with distinct characters, so greedy
consumption without backtracking is exact (the final `\s*\n` is
`wsThroughLastNl`).  Leading `\s*` may consume newlines, as in Python. -/
def trySummaryAt (s : List Char) : Option (List Char) :=
  match matchLit ['#', '#', '#'] (dropWs s) with
  | none => none
  | some s1 =>
    let s2 := (dropWs s1).dropWhile Char.isDigit
    let s3 :=
      match s2 with
      | '.' :: r => r
      | _ => s2
    let s4 := dropWs s3
    match matchLitCI "One-Sentence Summary".data s4 with
    | some s5 => wsThroughLastNl s5
    | none =>
      match matchLit "一句话总结".data s4 with
      | some s5 => wsThroughLastNl s5
      | none => none

/-- `re.sub` of the summary-heading pattern with the empty string over
the whole text: try the pattern at every line-start position (a position
is a line start when it is position 0 or follows a newline — after a
removal the last consumed character is a newline, so the next position is
again a line start). -/
def rmSummaryAux : Nat → Bool → List Char → List Char
  | 0, _, s => s
  | _ + 1, _, [] => []
  | fuel + 1, atStart, c :: r =>
    if atStart then
      match trySummaryAt (c :: r) with
      | some rem => rmSummaryAux fuel true rem
      | none => c :: rmSummaryAux fuel (c == '\n') r
    else c :: rmSummaryAux fuel (c == '\n') r

/-- The summary-heading removal pass
`re.sub(r"(?mi)^\s*###\s*\d*\.?\s*(One-Sentence Summary|一句话总结)\s*\n", "", s)`. -/
def rmSummary (s : List Char) : List Char := rmSummaryAux s.length true s

/-- `re.sub(r"^\s*-\s+", "", line)`: strip one leading list-bullet
prefix; `^` anchors at the start of the line string, so at most one
substitution happens. -/
def stripBullet (l : List Char) : List Char :=
  match l.dropWhile pyIsSpace with
  | '-' :: rest =>
    match rest with
    | c :: _ => if pyIsSpace c then rest.dropWhile pyIsSpace else l
    | [] => l
  | _ => l

/-- The second line loop of `_post_process_note`: inside the Anki
section, guarantee one blank line right after the heading (inserting one
if the first line is non-blank) and strip leading list bullets; a later
`##` heading leaves the section and is kept unchanged. -/
def ankiBlankLoop : Bool → Bool → List (List Char) → List (List Char)
  | _, _, [] => []
  | inAnki, inserted, l :: ls =>
    if ankiHeaderLine l then l :: ankiBlankLoop true false ls
    else if inAnki then
      let blank : List (List Char) :=
        if !inserted && !(pyStrip l).isEmpty then [[]] else []
      if isH2 l then blank ++ l :: ankiBlankLoop false true ls
      else blank ++ stripBullet l :: ankiBlankLoop true true ls
    else l :: ankiBlankLoop inAnki inserted ls

/-- `LLMHandler._post_process_note`: separator normalisation, cloze
brace-and-index normalisation, cloze stripping outside the Anki section,
summary-heading removal, and Anki-section blank-line and bullet
clean-up, in source order. -/
def postProcessNote (s : List Char) : List Char :=
  let s1 := starsToDashes s
  let s2 := clozeSub s1
  let s3 := joinNl (stripOutsideLoop false (splitlines s2))
  let s4 := rmSummary s3
  joinNl (ankiBlankLoop false false (splitlines s4))

/-- String-level wrapper of `postProcessNote`. -/
def postProcessNoteStr (s : String) : String := ⟨postProcessNote s.data⟩

/-- An Anki section heading assembled from its tolerated parts:
whitespace padding everywhere the regexes allow it and an optional emoji
prefix. -/
def mkAnkiHeader (w1 w2 w3 w4 w5 : List Char) (emoji : Bool) : List Char :=
  w1 ++ '#' :: '#' :: w2 ++ (if emoji then '🧠' :: w3 else []) ++
    "Anki".data ++ w4 ++ "卡片".data ++ w5

/-! ## Sequence allocation: `ObsidianManager.get_next_sequence_num` -/

/-- Numeric value `int(m.group(1))` of the three leading digits. -/
def seqVal (d0 d1 d2 : Char) : Nat :=
  100 * (d0.toNat - '0'.toNat) + 10 * (d1.toNat - '0'.toNat) + (d2.toNat - '0'.toNat)

/-- The `.*\.md$` tail of the sequence pattern under `re.IGNORECASE`:
the name ends in `.md` in any letter case, and the part covered by `.*`
contains no newline (`.` does not match one). -/
def mdSuffix (rest : List Char) : Bool :=
  match rest.reverse with
  | d :: m :: p :: mid =>
    p == '.' && (m == 'm' || m == 'M') && (d == 'd' || d == 'D')
      && mid.all (fun c => !(c == '\n'))
  | _ => false

/-- The compiled pattern `^(\d{3})-.*\.md$` with `re.IGNORECASE`
(`pattern.match` anchors at the start): three digits, a dash, any
newline-free middle and a `.md` suffix in any case; on success the value
of the digit group. -/
def parseSeq (name : String) : Option Nat :=
  match name.data with
  | d0 :: d1 :: d2 :: '-' :: rest =>
    if d0.isDigit && d1.isDigit && d2.isDigit && mdSuffix rest then
      some (seqVal d0 d1 d2)
    else none
  | _ => none

/-- `self.notes_dir.glob("*.md")` on a case-sensitive file system: the
names in the course note directory that literally end in `.md`. -/
def globMd (files : List String) : List String :=
  files.filter (fun n => decide (['.', 'm', 'd'] <:+ n.data))

/-- `"Transcript" in path.name`: case-sensitive substring test. -/
def hasTranscript (name : String) : Bool :=
  pySubstr "Transcript" name

/-- `ObsidianManager.get_next_sequence_num`: fold over the `*.md` names
of the note directory, keeping the maximal leading sequence number of
those matching the pattern and not containing "Transcript" (starting
from 0), and add one.  (`int` of three digits cannot raise, so the
`ValueError` guard of the source is dead code.) -/
def getNextSequenceNum (files : List String) : Nat :=
  (globMd files).foldl
    (fun maxSeq name =>
      match parseSeq name with
      | some n => if hasTranscript name then maxSeq else max maxSeq n
      | none => maxSeq) 0 + 1

/-- The qualifying sequence numbers in the words of the specification:
among the `.md` files of the directory, the leading numbers of the names
that match `^(\d{3})-.*\.md$` case-insensitively and do not contain the
substring "Transcript". -/
def qualifyingSeqs (files : List String) : List Nat :=
  ((globMd files).filter (fun n => !(hasTranscript n))).filterMap parseSeq

/-! ## Atomic note write: `ObsidianManager.save_note` -/

/-- A flat file system: an association list from path to content; the
first binding for a path wins. -/
def FileSys := List (String × String)

/-- Content at a path, if the file exists. -/
def fsGet (path : String) : FileSys → Option String
  | [] => none
  | (p, v) :: rest => if p == path then some v else fsGet path rest

/-- Remove a path. -/
def fsDel (path : String) : FileSys → FileSys
  | [] => []
  | (p, v) :: rest => if p == path then fsDel path rest else (p, v) :: fsDel path rest

/-- Create or overwrite a path. -/
def fsSet (path : String) (v : String) (fs : FileSys) : FileSys :=
  (path, v) :: fsDel path fs

/-- The file-system steps `save_note` performs after composing the
filename: `tempfile.NamedTemporaryFile(dir=self.notes_dir)` creates an
empty fresh temporary file in the destination directory,
`tmp.write(md_content)` transfers the body (modelled as a sequence of
appended chunks, since an interrupted write may persist any prefix of
the data), and `os.replace(tmp_path, final_path)` atomically moves the
temporary file onto the final path (same directory, hence the same file
system, where the rename is atomic). -/
inductive WriteStep where
  | create
  | append (chunk : String)
  | rename
deriving DecidableEq, Repr

/-- Effect of one step on the file system. -/
def applyStep (tmp final : String) (fs : FileSys) : WriteStep → FileSys
  | .create => fsSet tmp "" fs
  | .append chunk => fsSet tmp (((fsGet tmp fs).getD "") ++ chunk) fs
  | .rename => fsSet final ((fsGet tmp fs).getD "") (fsDel tmp fs)

/-- Run a list of steps in order. -/
def runSteps (tmp final : String) (fs : FileSys) : List WriteStep → FileSys
  | [] => fs
  | s :: rest => runSteps tmp final (applyStep tmp final fs s) rest

/-- The step trace of `save_note` writing a body that reaches the disk
as the given chunks: create the temporary file, transfer the data, then
one atomic rename. -/
def saveNoteSteps (chunks : List String) : List WriteStep :=
  WriteStep.create :: chunks.map WriteStep.append ++ [WriteStep.rename]

/-! ## Retry loop and fatal exit codes: `LLMHandler.generate_note`,
`main` -/

/-- The configuration the retry loop reads (`LLM_RETRY_COUNT`,
`LLM_RETRY_DELAY`, both cast with `int`). -/
structure LLMConfig where
  llm_retry_count : Int
  llm_retry_delay : Int
deriving Repr

/-- Outcome of one `chat.completions.create` call: an exception, or the
returned message content (possibly empty). -/
inductive AttemptResult where
  | err
  | content (s : String)
deriving Repr

/-- An attempt that contributes nothing: it raised, or its stripped
content is empty. -/
def attemptFailed : AttemptResult → Bool
  | .err => true
  | .content s => pyStripStr s == ""

/-- The `for attempt in range(1, retries + 1)` loop of `generate_note`,
indexed by the attempt number and the remaining attempt count.  A call
whose stripped content is non-empty is post-processed
(`_post_process_note` then `_maybe_fix_anki_cloze_via_llm`, abstracted
together as `process` because the latter performs its own network call)
and returned if still non-empty.  Otherwise, when attempts remain the
loop sleeps the fixed `delay` (recorded in the returned list) and
retries; after the last attempt it returns `None`.  `attemptOutcome` is
the per-attempt part of the body. -/
def attemptOutcome (process : String → String) : AttemptResult → Option String
  | .err => none
  | .content s =>
    let c := pyStripStr s
    if c = "" then none
    else if process c = "" then none else some (process c)

/-- The retry recursion itself, over the remaining attempt count. -/
def genLoop (attempt : Nat → AttemptResult) (process : String → String)
    (delay : Int) : Nat → Nat → Option String × List Int
  | _, 0 => (none, [])
  | i, rem + 1 =>
    match attemptOutcome process (attempt i) with
    | some r => (some r, [])
    | none =>
      if rem = 0 then (none, [])
      else ((genLoop attempt process delay (i + 1) rem).1,
            delay :: (genLoop attempt process delay (i + 1) rem).2)

/-- `LLMHandler.generate_note` (the retry part): `retries = max(1,
int(retry_count))`, `delay = max(1, int(retry_delay))`; returns the
produced note (or `None`) together with the list of performed sleep
durations. -/
def generateNote (cfg : LLMConfig) (attempt : Nat → AttemptResult)
    (process : String → String) : Option String × List Int :=
  genLoop attempt process (max 1 cfg.llm_retry_delay) 1 (max 1 cfg.llm_retry_count).toNat

/-- The fatal branches of the per-file loop in `main` (steps d, e, f):
`sys.exit(2)` when `generate_note` returned nothing, `sys.exit(3)` when
persisting transcript or note raised, `sys.exit(4)` when archiving the
source file failed; `none` when the file completed. -/
def pipelineExitCode (noteResult : Option String) (saveOk moveOk : Bool) : Option Nat :=
  match noteResult with
  | none => some 2
  | some _ => if !saveOk then some 3 else if !moveOk then some 4 else none

/-! ## Template classification: `LLMHandler._select_template` -/

/-- The clinical-course test of `_select_template`: configured entries
are stripped with blank ones dropped
(`[c.strip() for c in clinical_courses if c.strip()]`), the course name
is stripped, and the course is clinical when some entry equals the
normalised name or — being non-empty — contains it or is contained in
it. -/
def isClinicalCourse (clinicalCourses : List String) (courseName : String) : Bool :=
  let cs := (clinicalCourses.filter (fun c => !(pyStripStr c == ""))).map pyStripStr
  let nameNorm := pyStripStr courseName
  cs.any (fun c =>
    c == nameNorm || (!(c == "") && (pySubstr c nameNorm || pySubstr nameNorm c)))

/-- The template kind `_select_template` chooses before reading any
file (the file fallback can later swap in the general template when the
clinical file is unreadable, but the classification itself is this
choice). -/
inductive TemplateKind where
  | clinical
  | general
deriving DecidableEq, Repr

/-- `template_name = "clinical" if is_clinical else "general"`. -/
def selectTemplateKind (clinicalCourses : List String) (courseName : String) : TemplateKind :=
  if isClinicalCourse clinicalCourses courseName then .clinical else .general

/-- Fixture: retry configuration with 3 retries and a 5 second delay. -/
def cfgEx : LLMConfig := ⟨3, 5⟩

/-- Fixture: an `ICSParser` with two overlapping events (semester start at
day 0). -/
def pEx1 : ICSParser :=
  ⟨[⟨" A ", 0, 100⟩, ⟨"B", 50, 150⟩], 0⟩

/-- Fixture: an `ICSParser` with one event `[0, 100]` (semester start at
day 0). -/
def pEx2 : ICSParser :=
  ⟨[⟨"A", 0, 100⟩], 0⟩

end AudioNote

namespace AudioNote

/-! ### Helper lemmas about `firstMinBy` -/

theorem firstMinBy_decomp {α : Type} (key : α → Int) (l : List α) (h : l ≠ []) :
    ∃ e l1 l2, firstMinBy key l = some e ∧ l = l1 ++ e :: l2 ∧
      (∀ x ∈ l1, key e < key x) ∧ (∀ x ∈ l2, key e ≤ key x) := by
  induction l with
  | nil => exact absurd rfl h
  | cons a rest ih =>
    match rest, ih with
    | [], _ =>
      exact ⟨a, [], [], by simp [firstMinBy], by simp, by simp, by simp⟩
    | b :: r, ih =>
      obtain ⟨m, l1, l2, hm, hdec, h1, h2⟩ := ih (by simp)
      by_cases hk : key m < key a
      · refine ⟨m, a :: l1, l2, ?_, ?_, ?_, h2⟩
        · rw [firstMinBy, hm]; simp [hk]
        · simp [hdec]
        · intro x hx
          rcases List.mem_cons.mp hx with hx | hx
          · simpa [hx] using hk
          · exact h1 x hx
      · push_neg at hk
        refine ⟨a, [], b :: r, ?_, rfl, by simp, ?_⟩
        · rw [firstMinBy, hm]; simp [not_lt.mpr hk]
        · intro x hx
          rw [hdec] at hx
          rcases List.mem_append.mp hx with hx | hx
          · exact le_trans hk (le_of_lt (h1 x hx))
          · rcases List.mem_cons.mp hx with hx | hx
            · simp [hx, hk]
            · exact le_trans hk (h2 x hx)

theorem firstMinBy_mem {α : Type} (key : α → Int) (l : List α) (e : α)
    (h : firstMinBy key l = some e) : e ∈ l := by
  induction l with
  | nil => simp [firstMinBy] at h
  | cons a rest ih =>
    rw [firstMinBy] at h
    cases hr : firstMinBy key rest with
    | none => rw [hr] at h; simp at h; simp [h]
    | some m =>
      rw [hr] at h
      by_cases hk : key m < key a
      · simp [hk] at h
        exact List.mem_cons_of_mem a (ih (h ▸ hr))
      · simp [hk] at h
        simp [h]

/-! ### Claim C1 -/

/-- C1: whenever the closed interval `[begin, end]` of at least one event
contains the timestamp `t`, `match_course` returns a match whose
`course_name` is the trimmed name of a covering event whose `begin` is
closest in absolute time to `t`; among the covering events (in the stable
order of the loaded, begin-ascending list) every earlier one is strictly
farther and every later one at least as far, and any tie in distance
forces an equal `begin`, so the earliest-starting covering event wins. -/
theorem matchCourse_covering_hit (p : ICSParser) (t : Int)
    (hc : coveringOf p t ≠ []) :
    ∃ e l1 l2,
      coveringOf p t = l1 ++ e :: l2 ∧
      matchCourse p t = some ⟨pyStripStr e.name, calcWeekNum p t⟩ ∧
      (∀ x ∈ l1, |e.begin - t| < |x.begin - t|) ∧
      (∀ x ∈ l2, |e.begin - t| ≤ |x.begin - t|) ∧
      (∀ x ∈ coveringOf p t, |x.begin - t| = |e.begin - t| → x.begin = e.begin) := by
  obtain ⟨e, l1, l2, hmin, hdec, h1, h2⟩ :=
    firstMinBy_decomp (fun ev => |ev.begin - t|) (coveringOf p t) hc
  have hne : ¬ p.events.isEmpty := by
    intro hempty
    rw [List.isEmpty_iff] at hempty
    apply hc
    simp [coveringOf, hempty]
  have hmc : matchCourse p t = some ⟨pyStripStr e.name, calcWeekNum p t⟩ := by
    rw [matchCourse, if_neg hne, hmin]
  refine ⟨e, l1, l2, hdec, hmc, h1, h2, ?_⟩
  intro x hx heq
  have hxcov := hx
  rw [coveringOf, List.mem_filter] at hxcov
  have hxb : x.begin ≤ t := by
    have h := hxcov.2
    simp [coverB] at h
    exact h.1
  have hecov : e ∈ coveringOf p t := by rw [hdec]; simp
  rw [coveringOf, List.mem_filter] at hecov
  have heb : e.begin ≤ t := by
    have h := hecov.2
    simp [coverB] at h
    exact h.1
  rw [abs_of_nonpos (by omega), abs_of_nonpos (by omega)] at heq
  omega

/-- Witness for C1 at a concrete parser: timestamp 60 is covered by both
events of `pEx1`; the returned match is event `B` (begin 50, the closest
begin). -/
theorem matchCourse_covering_hit_witness :
    coveringOf pEx1 60 ≠ [] ∧
    (∃ e l1 l2,
      coveringOf pEx1 60 = l1 ++ e :: l2 ∧
      matchCourse pEx1 60 = some ⟨pyStripStr e.name, calcWeekNum pEx1 60⟩ ∧
      (∀ x ∈ l1, |e.begin - 60| < |x.begin - 60|) ∧
      (∀ x ∈ l2, |e.begin - 60| ≤ |x.begin - 60|) ∧
      (∀ x ∈ coveringOf pEx1 60, |x.begin - 60| = |e.begin - 60| → x.begin = e.begin)) ∧
    matchCourse pEx1 60 = some ⟨"B", 1⟩ :=
  ⟨by decide, matchCourse_covering_hit pEx1 60 (by decide), by decide⟩

/-! ### Claim C2 -/

/-- C2: when no closed event interval contains `t` (and the event list
is non-empty), the event with the globally minimal edge distance
`min(|begin - t|, |end - t|)` decides the outcome: if that minimum is at
most 3600 seconds (boundary inclusive) `match_course` returns that
match of that event, and if it exceeds 3600 seconds `match_course` returns
none. -/
theorem matchCourse_nearest_edge (p : ICSParser) (t : Int)
    (hne : p.events ≠ [])
    (hnc : ∀ ev ∈ p.events, ¬ (ev.begin ≤ t ∧ t ≤ ev.endTime)) :
    ∃ e, e ∈ p.events ∧ (∀ x ∈ p.events, edgeDist t e ≤ edgeDist t x) ∧
      (edgeDist t e ≤ 3600 →
        matchCourse p t = some ⟨pyStripStr e.name, calcWeekNum p t⟩) ∧
      (3600 < edgeDist t e → matchCourse p t = none) := by
  have hcov : coveringOf p t = [] := by
    rw [coveringOf, List.filter_eq_nil_iff]
    intro ev hev
    have h := hnc ev hev
    simp [coverB]
    omega
  obtain ⟨e, l1, l2, hmin, hdec, h1, h2⟩ := firstMinBy_decomp (edgeDist t) p.events hne
  have hmem : e ∈ p.events := by rw [hdec]; simp
  have hglobal : ∀ x ∈ p.events, edgeDist t e ≤ edgeDist t x := by
    intro x hx
    rw [hdec] at hx
    rcases List.mem_append.mp hx with hx | hx
    · exact le_of_lt (h1 x hx)
    · rcases List.mem_cons.mp hx with hx | hx
      · simp [hx]
      · exact h2 x hx
  have hbEmpty : ¬ p.events.isEmpty := by simp [List.isEmpty_iff, hne]
  refine ⟨e, hmem, hglobal, ?_, ?_⟩
  · intro hle
    rw [matchCourse, if_neg hbEmpty, hcov]
    simp only [firstMinBy]
    rw [hmin]
    simp [hle]
  · intro hgt
    rw [matchCourse, if_neg hbEmpty, hcov]
    simp only [firstMinBy]
    rw [hmin]
    simp [not_le.mpr hgt]

/-- Witness for C2 at a concrete parser: timestamp 3700 is outside the
single event `[0, 100]` of `pEx2` and exactly 3600 seconds from its end,
so it still matches; timestamp 7202 is farther than 3600 seconds from
every edge and yields none. -/
theorem matchCourse_nearest_edge_witness :
    pEx2.events ≠ [] ∧
    (∀ ev ∈ pEx2.events, ¬ (ev.begin ≤ (3700 : Int) ∧ (3700 : Int) ≤ ev.endTime)) ∧
    (∃ e, e ∈ pEx2.events ∧
      (∀ x ∈ pEx2.events, edgeDist 3700 e ≤ edgeDist 3700 x) ∧
      (edgeDist 3700 e ≤ 3600 →
        matchCourse pEx2 3700 = some ⟨pyStripStr e.name, calcWeekNum pEx2 3700⟩) ∧
      (3600 < edgeDist 3700 e → matchCourse pEx2 3700 = none)) ∧
    matchCourse pEx2 3700 = some ⟨"A", 1⟩ ∧
    matchCourse pEx2 7202 = none :=
  ⟨by decide, by decide, matchCourse_nearest_edge pEx2 3700 (by decide) (by decide),
    by decide, by decide⟩

/-! ### Claim C9 -/

/-- C9: every produced `CourseMatch` carries
`week_num = max(1, 1 + floor(days_between(start, date(t)) / 7))`; hence
`week_num` is at least 1 (also before the semester start), and a
timestamp whose date is exactly 7 days after the semester start yields
week 2. -/
theorem matchCourse_week_num (p : ICSParser) (t : Int) (m : CourseMatch)
    (h : matchCourse p t = some m) :
    m.week_num = max 1 (1 + Int.fdiv (dayOf t - p.semesterStartDay) 7) ∧
    1 ≤ m.week_num ∧
    (dayOf t - p.semesterStartDay = 7 → m.week_num = 2) := by
  have hw : m.week_num = calcWeekNum p t := by
    rw [matchCourse] at h
    split at h
    · exact absurd h (by simp)
    · split at h
      · simp only [Option.some.injEq] at h
        rw [← h]
      · split at h
        · split at h
          · simp only [Option.some.injEq] at h
            rw [← h]
          · exact absurd h (by simp)
        · exact absurd h (by simp)
  refine ⟨by rw [hw, calcWeekNum], ?_, ?_⟩
  · rw [hw, calcWeekNum]; exact le_max_left 1 _
  · intro h7
    rw [hw, calcWeekNum, h7]
    decide

/-- Witness for C9: the concrete match of `pEx1` at timestamp 60 carries
week number 1 (day 0 of the semester). -/
theorem matchCourse_week_num_witness :
    matchCourse pEx1 60 = some ⟨"B", 1⟩ ∧
    ((⟨"B", 1⟩ : CourseMatch).week_num =
      max 1 (1 + Int.fdiv (dayOf 60 - pEx1.semesterStartDay) 7) ∧
    1 ≤ (⟨"B", 1⟩ : CourseMatch).week_num ∧
    (dayOf 60 - pEx1.semesterStartDay = 7 → (⟨"B", 1⟩ : CourseMatch).week_num = 2)) :=
  ⟨by decide, matchCourse_week_num pEx1 60 ⟨"B", 1⟩ (by decide)⟩

/-! ### Helper lemmas for the Anki heading -/

theorem matchLit_append (p s : List Char) : matchLit p (p ++ s) = some s := by
  induction p with
  | nil => simp [matchLit]
  | cons c cs ih => simp [matchLit, ih]

theorem dropWs_ws_append (w s : List Char) (hw : ∀ c ∈ w, pyIsSpace c) :
    dropWs (w ++ s) = dropWs s := by
  induction w with
  | nil => rfl
  | cons c cs ih =>
    have hc : pyIsSpace c = true := hw c (by simp)
    have ih2 := ih (fun x hx => hw x (by simp [hx]))
    simp only [List.cons_append, dropWs, List.dropWhile_cons, hc, if_true]
    exact ih2

theorem dropWs_cons_of_not (c : Char) (s : List Char) (hc : ¬ pyIsSpace c) :
    dropWs (c :: s) = c :: s := by
  simp only [dropWs, List.dropWhile_cons]
  simp [hc]

theorem dropWs_cons_append (c : Char) (cs Y : List Char) (hc : ¬ pyIsSpace c) :
    dropWs ((c :: cs) ++ Y) = (c :: cs) ++ Y := by
  simp only [List.cons_append]
  exact dropWs_cons_of_not _ _ hc

theorem dropWs_all_ws (w : List Char) (hw : ∀ c ∈ w, pyIsSpace c) :
    dropWs w = [] := by
  have h := dropWs_ws_append w [] (by simpa using hw)
  simpa using h

/-- The Anki heading test accepts every line assembled from optional
whitespace, `##`, an optional 🧠 emoji, `Anki` and `卡片` (whitespace
padding anywhere in between), exactly as the two source regexes do. -/
theorem ankiHeaderLine_mk (w1 w2 w3 w4 w5 : List Char) (emoji : Bool)
    (h : ∀ c ∈ w1 ++ w2 ++ w3 ++ w4 ++ w5, pyIsSpace c) :
    ankiHeaderLine (mkAnkiHeader w1 w2 w3 w4 w5 emoji) = true := by
  have hw1 : ∀ c ∈ w1, pyIsSpace c := fun c hc => h c (by simp [hc])
  have hw2 : ∀ c ∈ w2, pyIsSpace c := fun c hc => h c (by simp [hc])
  have hw3 : ∀ c ∈ w3, pyIsSpace c := fun c hc => h c (by simp [hc])
  have hw4 : ∀ c ∈ w4, pyIsSpace c := fun c hc => h c (by simp [hc])
  have hw5 : ∀ c ∈ w5, pyIsSpace c := fun c hc => h c (by simp [hc])
  have hA : "Anki".data = ['A', 'n', 'k', 'i'] := rfl
  have hK : "卡片".data = ['卡', '片'] := rfl
  cases emoji with
  | true =>
    rw [ankiHeaderLine, mkAnkiHeader, hA, hK]
    simp only [if_true, List.cons_append, List.nil_append, List.append_assoc]
    rw [dropWs_ws_append _ _ hw1, dropWs_cons_of_not _ _ (by decide)]
    simp only [matchLit, eq_self_iff_true, if_true]
    rw [dropWs_ws_append _ _ hw2, dropWs_cons_of_not _ _ (by decide)]
    simp only [matchLit, eq_self_iff_true, if_true]
    rw [dropWs_ws_append _ _ hw3, dropWs_cons_of_not _ _ (by decide)]
    simp only [matchLit, eq_self_iff_true, if_true]
    rw [dropWs_ws_append _ _ hw4, dropWs_cons_of_not _ _ (by decide)]
    simp only [matchLit, eq_self_iff_true, if_true]
    rw [dropWs_all_ws _ hw5]
    rfl
  | false =>
    rw [ankiHeaderLine, mkAnkiHeader, hA, hK]
    simp only [Bool.false_eq_true, if_false, List.cons_append, List.nil_append,
      List.append_assoc]
    rw [dropWs_ws_append _ _ hw1, dropWs_cons_of_not _ _ (by decide)]
    simp only [matchLit, eq_self_iff_true, if_true]
    rw [dropWs_ws_append _ _ hw2, dropWs_cons_of_not _ _ (by decide)]
    simp only [matchLit, eq_self_iff_true, if_true]
    rw [dropWs_ws_append _ _ hw4, dropWs_cons_of_not _ _ (by decide)]
    simp only [matchLit, eq_self_iff_true, if_true]
    rw [dropWs_all_ws _ hw5]
    rfl

/-! ### Claim C3 -/

/-- C3 (code bug): a double-braced cloze marker is not normalised to the
canonical form.  Inside the Anki section the global substitution matches
the input text starting at the inner brace, so a marker written as a
double-braced cloze comes out wrapped in one extra brace pair instead of
in the canonical double-braced form; outside the section the stripping
pass then leaves the inner text wrapped in one stray brace pair instead
of bare.  Single-braced markers behave as the claim states. -/
theorem postProcess_doubleBrace_mangled :
    postProcessNote "## Anki 卡片\n\x7b\x7bc7::x\x7d\x7d".data
      = "## Anki 卡片\n\n\x7b\x7b\x7bc1::x\x7d\x7d\x7d".data ∧
    postProcessNote "prose \x7b\x7bc7::y\x7d\x7d end".data
      = "prose \x7by\x7d end".data ∧
    postProcessNote "## Anki 卡片\n\x7bc7::x\x7d".data
      = "## Anki 卡片\n\n\x7b\x7bc1::x\x7d\x7d".data ∧
    postProcessNote "prose \x7bc3::z\x7d end".data
      = "prose z end".data :=
  ⟨by decide, by decide, by decide, by decide⟩

/-! ### Claim C4 -/

/-- C4 (code bug): post-processing is not idempotent.  On a note whose
Anki section already contains the canonical double-braced `c1` cloze
marker, every application of `_post_process_note` adds one more brace
pair around the marker, so the second application changes the text
again. -/
theorem postProcess_not_idempotent :
    postProcessNote (postProcessNote "## Anki 卡片\n\n\x7b\x7bc1::x\x7d\x7d".data)
      ≠ postProcessNote "## Anki 卡片\n\n\x7b\x7bc1::x\x7d\x7d".data := by
  decide

/-! ### Claim C5 -/

/-- C5 counterexample: the heading match is case sensitive and the
heading is never rewritten.  The variant differing from the canonical
heading only in the letter case of `Anki` is not recognised (its line is
treated as outside the flashcard section, so the cloze marker on the next
line is stripped), and even a recognised whitespace variant of the
heading is left verbatim in the output rather than normalised to one
canonical heading string. -/
theorem ankiHeader_case_counterexample :
    ankiHeaderLine "## anki 卡片".data = false ∧
    postProcessNote "## anki 卡片\n\x7bc2::x\x7d".data
      = "## anki 卡片\nx".data ∧
    postProcessNote "##  Anki  卡片\n\x7bc2::x\x7d".data
      = "##  Anki  卡片\n\n\x7b\x7bc1::x\x7d\x7d".data :=
  ⟨by decide, by decide, by decide⟩

/-- C5 (amended): the post-processor recognises the flashcard heading
case-sensitively, in exactly these tolerated variants: optional
whitespace padding, `##`, an optional 🧠 emoji prefix, and the literal
words `Anki` and `卡片` with whitespace padding in between.  At such a
line both line loops enter flashcard-section mode, and the heading line
is appended to the output unchanged (no normalisation of the heading
takes place). -/
theorem ankiHeader_recognised (w1 w2 w3 w4 w5 : List Char) (emoji : Bool)
    (inAnki inserted : Bool) (ls : List (List Char))
    (h : ∀ c ∈ w1 ++ w2 ++ w3 ++ w4 ++ w5, pyIsSpace c) :
    ankiHeaderLine (mkAnkiHeader w1 w2 w3 w4 w5 emoji) = true ∧
    stripOutsideLoop inAnki (mkAnkiHeader w1 w2 w3 w4 w5 emoji :: ls)
      = mkAnkiHeader w1 w2 w3 w4 w5 emoji :: stripOutsideLoop true ls ∧
    ankiBlankLoop inAnki inserted (mkAnkiHeader w1 w2 w3 w4 w5 emoji :: ls)
      = mkAnkiHeader w1 w2 w3 w4 w5 emoji :: ankiBlankLoop true false ls := by
  have hm := ankiHeaderLine_mk w1 w2 w3 w4 w5 emoji h
  refine ⟨hm, ?_, ?_⟩
  · rw [stripOutsideLoop, if_pos hm]
  · rw [ankiBlankLoop, if_pos hm]

/-- Witness for the amended C5 at a concrete heading: the emoji variant
`## 🧠 Anki 卡片` is recognised and passed through unchanged by both
loops. -/
theorem ankiHeader_recognised_witness :
    (∀ c ∈ ([] : List Char) ++ [' '] ++ [' '] ++ [' '] ++ [], pyIsSpace c) ∧
    (ankiHeaderLine (mkAnkiHeader [] [' '] [' '] [' '] [] true) = true ∧
     stripOutsideLoop false (mkAnkiHeader [] [' '] [' '] [' '] [] true :: [])
       = mkAnkiHeader [] [' '] [' '] [' '] [] true :: stripOutsideLoop true [] ∧
     ankiBlankLoop false false (mkAnkiHeader [] [' '] [' '] [' '] [] true :: [])
       = mkAnkiHeader [] [' '] [' '] [' '] [] true :: ankiBlankLoop true false []) :=
  ⟨by decide, ankiHeader_recognised [] [' '] [' '] [' '] [] true false false [] (by decide)⟩

/-! ### Claim C6 -/

/-- The fold of `get_next_sequence_num` computes the maximum of the
qualifying sequence numbers (relative to a running accumulator). -/
theorem seqFold_eq (l : List String) (a : Nat) :
    l.foldl (fun maxSeq name =>
      match parseSeq name with
      | some n => if hasTranscript name then maxSeq else max maxSeq n
      | none => maxSeq) a
    = max a (((l.filter (fun n => !(hasTranscript n))).filterMap parseSeq).foldr max 0) := by
  induction l generalizing a with
  | nil => simp
  | cons n t ih =>
    rw [List.foldl_cons, ih]
    cases hp : parseSeq n with
    | none =>
      by_cases ht : hasTranscript n
      · simp [List.filter_cons, ht, hp]
      · simp [List.filter_cons, ht, List.filterMap_cons, hp]
    | some v =>
      by_cases ht : hasTranscript n
      · simp [List.filter_cons, ht, hp]
      · simp [List.filter_cons, ht, List.filterMap_cons, hp, Nat.max_assoc]

/-- C6: `get_next_sequence_num` returns one plus the maximum of the
leading 3-digit numbers of the `.md` files whose names match
`^(\d{3})-.*\.md$` case-insensitively and do not contain "Transcript"
(the fold maximum of the empty qualifying list being 0, a directory with
no qualifying note yields 1); in particular the directory with notes
`001-a.md`, `002-b.md` and the transcript-named `002-W01-X-Transcript.md`
allocates sequence 3. -/
theorem getNextSequenceNum_spec :
    (∀ files, getNextSequenceNum files = 1 + (qualifyingSeqs files).foldr max 0) ∧
    getNextSequenceNum ["001-a.md", "002-b.md", "002-W01-X-Transcript.md"] = 3 := by
  constructor
  · intro files
    rw [getNextSequenceNum, qualifyingSeqs, seqFold_eq]
    simp [Nat.zero_max]
    omega
  · decide

/-! ### Claim C7 -/

theorem fsGet_set_eq (p : String) (v : String) (fs : FileSys) :
    fsGet p (fsSet p v fs) = some v := by
  simp [fsSet, fsGet]

theorem fsGet_del_ne (p q : String) (fs : FileSys) (h : p ≠ q) :
    fsGet p (fsDel q fs) = fsGet p fs := by
  induction fs with
  | nil => rfl
  | cons kv rest ih =>
    obtain ⟨k, v⟩ := kv
    rw [fsDel]
    by_cases hk : (k == q) = true
    · rw [if_pos hk, ih]
      have hkp : (k == p) = false := by
        rw [beq_iff_eq] at hk
        rw [beq_eq_false_iff_ne]
        intro e
        exact h (e.symm.trans hk)
      conv_rhs => rw [fsGet]
      simp [hkp]
    · rw [if_neg hk, fsGet, fsGet]
      by_cases hp : (k == p) = true
      · rw [if_pos hp, if_pos hp]
      · rw [if_neg hp, if_neg hp, ih]

theorem fsGet_set_ne (p q : String) (v : String) (fs : FileSys) (h : p ≠ q) :
    fsGet p (fsSet q v fs) = fsGet p fs := by
  rw [fsSet, fsGet]
  rw [if_neg (show ¬ (q == p) = true by
    simp only [beq_iff_eq]
    exact fun e => h e.symm)]
  exact fsGet_del_ne p q fs h

theorem runSteps_append (tmp final : String) (fs : FileSys)
    (l1 l2 : List WriteStep) :
    runSteps tmp final fs (l1 ++ l2)
      = runSteps tmp final (runSteps tmp final fs l1) l2 := by
  induction l1 generalizing fs with
  | nil => rfl
  | cons s t ih => rw [List.cons_append, runSteps, runSteps, ih]

/-- Steps that are not the rename never touch the final path. -/
theorem runSteps_no_rename_final (tmp final : String) (hne : tmp ≠ final)
    (steps : List WriteStep) (hs : ∀ s ∈ steps, s ≠ WriteStep.rename)
    (fs : FileSys) :
    fsGet final (runSteps tmp final fs steps) = fsGet final fs := by
  induction steps generalizing fs with
  | nil => rfl
  | cons s t ih =>
    rw [runSteps, ih (fun x hx => hs x (List.mem_cons_of_mem _ hx))]
    cases s with
    | create => exact fsGet_set_ne final tmp "" fs (Ne.symm hne)
    | append c => exact fsGet_set_ne final tmp _ fs (Ne.symm hne)
    | rename => exact absurd rfl (hs WriteStep.rename (by simp))

/-- Running the append steps accumulates the chunks at the temporary
path. -/
theorem runSteps_appends_tmp (tmp final : String) (chunks : List String)
    (fs : FileSys) (acc : String) (h : fsGet tmp fs = some acc) :
    fsGet tmp (runSteps tmp final fs (chunks.map WriteStep.append))
      = some (chunks.foldl (· ++ ·) acc) := by
  induction chunks generalizing fs acc with
  | nil => simpa using h
  | cons c t ih =>
    rw [List.map_cons, runSteps, List.foldl_cons]
    apply ih
    rw [applyStep, h]
    simpa using fsGet_set_eq tmp (acc ++ c) fs

/-- C7: `save_note` writes the body to a temporary file in the
destination directory and installs it with one atomic rename, so after
any prefix of its steps (an interruption at any point) the final path
holds either its previous content or the complete new content; the full
run always installs the complete new content. -/
theorem save_note_atomic (tmp final : String) (hne : tmp ≠ final)
    (chunks : List String) (fs : FileSys) (k : Nat) :
    (fsGet final (runSteps tmp final fs ((saveNoteSteps chunks).take k)) = fsGet final fs
      ∨ fsGet final (runSteps tmp final fs ((saveNoteSteps chunks).take k))
        = some (chunks.foldl (· ++ ·) "")) ∧
    ((saveNoteSteps chunks).length ≤ k →
      fsGet final (runSteps tmp final fs ((saveNoteSteps chunks).take k))
        = some (chunks.foldl (· ++ ·) "")) := by
  have hshape : saveNoteSteps chunks
      = (WriteStep.create :: chunks.map WriteStep.append) ++ [WriteStep.rename] := by
    simp [saveNoteSteps]
  have hlen : (saveNoteSteps chunks).length = chunks.length + 2 := by
    simp [saveNoteSteps]
  by_cases hk : k ≤ chunks.length + 1
  · have htake : (saveNoteSteps chunks).take k
        = (WriteStep.create :: chunks.map WriteStep.append).take k := by
      rw [hshape]
      exact List.take_append_of_le_length (by simp; omega)
    have hnone : ∀ s ∈ (saveNoteSteps chunks).take k, s ≠ WriteStep.rename := by
      rw [htake]
      intro s hs
      have hmem := List.take_subset _ _ hs
      rcases List.mem_cons.mp hmem with h1 | h1
      · rw [h1]; simp
      · obtain ⟨c, _, hc⟩ := List.mem_map.mp h1
        rw [← hc]; simp
    constructor
    · exact Or.inl (runSteps_no_rename_final tmp final hne _ hnone fs)
    · intro hlenk
      rw [hlen] at hlenk
      omega
  · push_neg at hk
    have htake : (saveNoteSteps chunks).take k = saveNoteSteps chunks :=
      List.take_of_length_le (by omega)
    have hfull : fsGet final (runSteps tmp final fs (saveNoteSteps chunks))
        = some (chunks.foldl (· ++ ·) "") := by
      rw [hshape, runSteps_append]
      have htmp : fsGet tmp
          (runSteps tmp final fs (WriteStep.create :: chunks.map WriteStep.append))
          = some (chunks.foldl (· ++ ·) "") := by
        rw [runSteps]
        apply runSteps_appends_tmp
        rw [applyStep]
        exact fsGet_set_eq tmp "" fs
      rw [runSteps, runSteps, applyStep, htmp]
      simpa using fsGet_set_eq final _ _
    rw [htake]
    exact ⟨Or.inr hfull, fun _ => hfull⟩

/-- Witness for C7: a concrete interrupted run (temporary file created
and half the data written) leaves the old note at the final path; a
concrete full run installs the new content. -/
theorem save_note_atomic_witness :
    ("tmp123" : String) ≠ "001-W01-Topic.md" ∧
    ((fsGet "001-W01-Topic.md"
        (runSteps "tmp123" "001-W01-Topic.md" [("001-W01-Topic.md", "old")]
          ((saveNoteSteps ["ne", "w"]).take 2))
        = fsGet "001-W01-Topic.md" [("001-W01-Topic.md", "old")]
      ∨ fsGet "001-W01-Topic.md"
        (runSteps "tmp123" "001-W01-Topic.md" [("001-W01-Topic.md", "old")]
          ((saveNoteSteps ["ne", "w"]).take 2))
        = some (["ne", "w"].foldl (· ++ ·) "")) ∧
     ((saveNoteSteps ["ne", "w"]).length ≤ 2 →
      fsGet "001-W01-Topic.md"
        (runSteps "tmp123" "001-W01-Topic.md" [("001-W01-Topic.md", "old")]
          ((saveNoteSteps ["ne", "w"]).take 2))
        = some (["ne", "w"].foldl (· ++ ·) ""))) ∧
    fsGet "001-W01-Topic.md"
      (runSteps "tmp123" "001-W01-Topic.md" [("001-W01-Topic.md", "old")]
        ((saveNoteSteps ["ne", "w"]).take 2)) = some "old" ∧
    fsGet "001-W01-Topic.md"
      (runSteps "tmp123" "001-W01-Topic.md" [("001-W01-Topic.md", "old")]
        (saveNoteSteps ["ne", "w"])) = some "new" :=
  ⟨by decide,
   save_note_atomic "tmp123" "001-W01-Topic.md" (by decide) ["ne", "w"]
     [("001-W01-Topic.md", "old")] 2,
   by decide, by decide⟩

/-! ### Claim C8 -/

theorem attemptOutcome_of_failed (process : String → String) (a : AttemptResult)
    (h : attemptFailed a = true) : attemptOutcome process a = none := by
  cases a with
  | err => rfl
  | content s =>
    rw [attemptFailed] at h
    rw [beq_iff_eq] at h
    simp [attemptOutcome, h]

/-- When every attempt fails, the loop returns nothing and sleeps the
fixed delay once between each pair of consecutive attempts. -/
theorem genLoop_all_fail (attempt : Nat → AttemptResult) (process : String → String)
    (delay : Int) (hf : ∀ i, attemptFailed (attempt i) = true) :
    ∀ rem i, genLoop attempt process delay i rem
      = (none, List.replicate (rem - 1) delay) := by
  intro rem
  induction rem with
  | zero => intro i; rfl
  | succ rem ih =>
    intro i
    rw [genLoop, attemptOutcome_of_failed process _ (hf i)]
    by_cases h0 : rem = 0
    · rw [h0]; rfl
    · rw [if_neg h0, ih (i + 1)]
      have h1 : rem = (rem - 1) + 1 := by omega
      rw [show rem + 1 - 1 = rem from rfl]
      conv_rhs => rw [h1]
      rw [List.replicate_succ]

/-- C8: `generate_note` makes `max(1, retry_count)` attempts (at least
one), sleeping the fixed `max(1, retry_delay)` between consecutive
attempts; when every attempt raises or yields empty content it returns
`None`, which `main` turns into the fatal exit code 2 — distinct from
exit code 3 (note/transcript persistence failure) and exit code 4
(source archival failure). -/
theorem generateNote_retry_exhaustion (cfg : LLMConfig)
    (attempt : Nat → AttemptResult) (process : String → String)
    (hf : ∀ i, attemptFailed (attempt i) = true) :
    (generateNote cfg attempt process).1 = none ∧
    (generateNote cfg attempt process).2
      = List.replicate ((max 1 cfg.llm_retry_count).toNat - 1)
          (max 1 cfg.llm_retry_delay) ∧
    1 ≤ (max 1 cfg.llm_retry_count).toNat ∧
    (∀ saveOk moveOk, pipelineExitCode none saveOk moveOk = some 2) ∧
    (∀ s, pipelineExitCode (some s) false true = some 3
        ∧ pipelineExitCode (some s) true false = some 4) ∧
    (2 : Nat) ≠ 3 ∧ (2 : Nat) ≠ 4 := by
  have h := genLoop_all_fail attempt process (max 1 cfg.llm_retry_delay) hf
      (max 1 cfg.llm_retry_count).toNat 1
  refine ⟨?_, ?_, ?_, ?_, ?_, by decide, by decide⟩
  · rw [generateNote, h]
  · rw [generateNote, h]
  · have h1 : (1 : Int) ≤ max 1 cfg.llm_retry_count := le_max_left _ _
    omega
  · intro saveOk moveOk; rfl
  · intro s; exact ⟨rfl, rfl⟩

/-- Witness for C8: with 3 configured retries, a 5 second delay and an
oracle whose every call raises, `generate_note` returns nothing after
exactly two sleeps of 5 seconds. -/
theorem generateNote_retry_exhaustion_witness :
    (∀ i : Nat, attemptFailed ((fun _ => AttemptResult.err) i) = true) ∧
    ((generateNote cfgEx (fun _ => AttemptResult.err) id).1 = none ∧
     (generateNote cfgEx (fun _ => AttemptResult.err) id).2
       = List.replicate ((max 1 cfgEx.llm_retry_count).toNat - 1)
           (max 1 cfgEx.llm_retry_delay) ∧
     1 ≤ (max 1 cfgEx.llm_retry_count).toNat ∧
     (∀ saveOk moveOk, pipelineExitCode none saveOk moveOk = some 2) ∧
     (∀ s, pipelineExitCode (some s) false true = some 3
         ∧ pipelineExitCode (some s) true false = some 4) ∧
     (2 : Nat) ≠ 3 ∧ (2 : Nat) ≠ 4) ∧
    generateNote cfgEx (fun _ => AttemptResult.err) id = (none, [5, 5]) :=
  ⟨fun _ => rfl,
   generateNote_retry_exhaustion cfgEx (fun _ => AttemptResult.err) id (fun _ => rfl),
   by decide⟩

/-! ### Claim C10 -/

/-- C10: when the configured clinical-course list has at least one
non-blank entry, a course whose name strips to the empty string is
classified as clinical (the empty normalised name is a substring of
every entry), and the clinical template is selected. -/
theorem emptyName_classified_clinical (clinicalCourses : List String)
    (courseName : String)
    (hcs : ∃ c ∈ clinicalCourses, pyStripStr c ≠ "")
    (hname : pyStripStr courseName = "") :
    isClinicalCourse clinicalCourses courseName = true ∧
    selectTemplateKind clinicalCourses courseName = TemplateKind.clinical := by
  obtain ⟨c, hc, hcne⟩ := hcs
  have hone : isClinicalCourse clinicalCourses courseName = true := by
    rw [isClinicalCourse]
    rw [List.any_eq_true]
    refine ⟨pyStripStr c, ?_, ?_⟩
    · apply List.mem_map_of_mem
      rw [List.mem_filter]
      exact ⟨hc, by simp [hcne]⟩
    · rw [hname]
      simp only [Bool.or_eq_true, Bool.and_eq_true]
      right
      refine ⟨by simp [hcne], Or.inr ?_⟩
      rw [pySubstr]
      simp only [decide_eq_true_eq]
      exact List.nil_infix
  exact ⟨hone, by rw [selectTemplateKind, if_pos hone]⟩

/-- Witness for C10: a whitespace-only course name against a list with
one non-blank clinical course is classified as clinical. -/
theorem emptyName_classified_clinical_witness :
    (∃ c ∈ [" 内科 "], pyStripStr c ≠ "") ∧ pyStripStr "  " = "" ∧
    (isClinicalCourse [" 内科 "] "  " = true ∧
     selectTemplateKind [" 内科 "] "  " = TemplateKind.clinical) :=
  ⟨⟨" 内科 ", by decide, by decide⟩, by decide,
   emptyName_classified_clinical [" 内科 "] "  "
     ⟨" 内科 ", by decide, by decide⟩ (by decide)⟩

end AudioNote
